import Mathlib

/-!
Shallow embedding of jaxxstorm/kube-tagger (src/main.go): a Kubernetes
controller that watches PersistentVolumeClaim events and propagates
annotation-declared key=value tags onto the backing AWS EBS volume.

Pure string manipulation (splitting, the availability-zone suffix strip)
is translated directly; the stateful event loop becomes explicit state
passing over a `Counters` record, with external collaborators (the k8s
PersistentVolumes Get, the EC2 DescribeVolumes and CreateTags calls)
supplied as an `Env` of oracle functions.  Process-terminating behaviour
(nil-pointer dereference, slice index out of range, log.Fatal) is rendered
as `Except Crash`.
-/

namespace KubeTagger

/-- Ways the Go process dies inside the modelled code: a nil-pointer
dereference panic, a slice index-out-of-range panic, or a logrus
`Fatal` call (which exits the process). -/
inductive Crash where
  | nilDeref
  | indexOutOfRange
  | fatalLog
deriving DecidableEq, Repr

/-- The prometheus counters of main.go (package-level globals there,
explicit state here). -/
structure Counters where
  eventsProcessed : Nat
  tagsAdded : Nat
  tagsExisting : Nat
  volumesTagged : Nat
  processingErrors : Nat
deriving DecidableEq, Repr

/-- An EC2 tag as returned by DescribeVolumes: a key and a value. -/
structure Tag where
  key : String
  value : String
deriving DecidableEq, Repr

/-- Go strings.Split with a single-character separator, over character
lists (strings.Split(s, "=") and strings.Split(vol, "/") in the source). -/
def splitOnChar (c : Char) : List Char → List (List Char)
  | [] => [[]]
  | x :: xs =>
    if x == c then [] :: splitOnChar c xs
    else
      match splitOnChar c xs with
      | [] => [[x]]
      | h :: t => (x :: h) :: t

/-- Boolean test that the first list is an initial segment of the second
(Go strings-package matching used by Split with a multi-character
separator). -/
def leadsWith : List Char → List Char → Bool
  | [], _ => true
  | _ :: _, [] => false
  | a :: as, b :: bs => a == b && leadsWith as bs

/-- Fuel-driven worker for Go strings.Split with an arbitrary non-empty
separator: scan left to right, cutting at each non-overlapping leftmost
occurrence of the separator. -/
def goSplitAux (sep : List Char) : Nat → List Char → List Char → List (List Char)
  | _, [], acc => [acc.reverse]
  | 0, l, acc => [acc.reverse ++ l]
  | fuel + 1, x :: xs, acc =>
    if leadsWith sep (x :: xs) then
      acc.reverse :: goSplitAux sep fuel ((x :: xs).drop sep.length) []
    else
      goSplitAux sep fuel xs (x :: acc)

/-- Go strings.Split(s, sep): with an empty separator the string explodes
into its characters; otherwise split around each instance of sep. -/
def goSplit (s sep : String) : List String :=
  match sep.data with
  | [] => s.data.map (fun c => String.mk [c])
  | c :: rest =>
    if rest.isEmpty then (splitOnChar c s.data).map String.mk
    else (goSplitAux sep.data (s.data.length + 1) s.data []).map String.mk

/-- Effect of the regexp `[a-z]$` ReplaceAllString(zone, "") in splitVol:
the pattern is anchored at end of text, so the sole possible match is the
final character when it is an ASCII lowercase letter, and that match is
deleted. -/
def reLowerAtEndDelete : List Char → List Char
  | [] => []
  | [c] => if 'a' ≤ c ∧ c ≤ 'z' then [] else [c]
  | c :: rest => c :: reLowerAtEndDelete rest

/-- splitVol of main.go: split the volume URL on "/" and read segments 2
and 3; the Go code indexes sp[2] and sp[3] unconditionally, so fewer than
four segments is an index-out-of-range panic, rendered here as the error
branch. -/
def splitVol (vol : String) : Except Crash (String × String) :=
  match (splitOnChar '/' vol.data)[2]?, (splitOnChar '/' vol.data)[3]? with
  | some z, some v => .ok (String.mk (reLowerAtEndDelete z), String.mk v)
  | _, _ => .error .indexOutOfRange

instance {ε : Type u} {α : Type v} [DecidableEq ε] [DecidableEq α] :
    DecidableEq (Except ε α)
  | .ok a, .ok b =>
    if h : a = b then .isTrue (by rw [h]) else .isFalse (fun hh => h (by injection hh))
  | .ok _, .error _ => .isFalse (fun hh => Except.noConfusion hh)
  | .error _, .ok _ => .isFalse (fun hh => Except.noConfusion hh)
  | .error e, .error f =>
    if h : e = f then .isTrue (by rw [h]) else .isFalse (fun hh => h (by injection hh))

/-- Per-token parse of addAWSTags (lines 233-239): strings.Split(token,
"=") must yield exactly two parts; otherwise the token is malformed. -/
def parseToken (tok : String) : Option (String × String) :=
  match splitOnChar '=' tok.data with
  | [k, v] => some (String.mk k, String.mk v)
  | _ => none

/-- hasTag of main.go: the remote tag set contains a tag whose key and
value both equal the candidate exactly.  (The Go function also increments
the tagsExisting counter on a hit; that increment is performed by the
caller model in `processTags`.) -/
def hasTag (tags : List Tag) (key value : String) : Bool :=
  tags.any (fun t => t.key == key && t.value == value)

/-- setTag of main.go: issue one CreateTags call for one key/value pair.
On API error the Go code calls log Fatal, which terminates the process;
on success the tagsAdded counter is incremented. -/
def setTag (applyOk : String → String → Bool) (tagKey tagValue : String)
    (cnt : Counters) : Except Crash Counters :=
  if applyOk tagKey tagValue then .ok { cnt with tagsAdded := cnt.tagsAdded + 1 }
  else .error .fatalLog

/-- Token loop of addAWSTags (lines 233-245): for each token, parse it
(malformed tokens increment processingErrors and are skipped), check
presence against the remote tags fetched once before the loop
(tagsExisting increment on a hit), and issue a CreateTags call for each
absent pair.  Returns the final counters and the list of pairs for which
an apply call succeeded; a failing apply aborts with `fatalLog`. -/
def processTags (applyOk : String → String → Bool) (remote : List Tag) :
    List String → Counters → Except Crash (Counters × List (String × String))
  | [], cnt => .ok (cnt, [])
  | tok :: rest, cnt =>
    match parseToken tok with
    | none =>
      processTags applyOk remote rest
        { cnt with processingErrors := cnt.processingErrors + 1 }
    | some (k, v) =>
      if hasTag remote k v then
        processTags applyOk remote rest
          { cnt with tagsExisting := cnt.tagsExisting + 1 }
      else
        match setTag applyOk k v cnt with
        | .error c => .error c
        | .ok cnt₁ =>
          match processTags applyOk remote rest cnt₁ with
          | .error c => .error c
          | .ok (cnt₂, applied) => .ok (cnt₂, (k, v) :: applied)

/-- External collaborators: the k8s PersistentVolumes Get (none = not
found), the EC2 DescribeVolumes tag fetch for (region, volume-id)
(none = API error), and the success of each EC2 CreateTags call. -/
structure Env where
  getPV : String → Option (Option String)
  describeTags : String → String → Option (List Tag)
  applyOk : String → String → Bool

/-- Result of one addAWSTags run that did not kill the process: the
counters and the pairs actually applied. -/
structure AWSResult where
  counters : Counters
  applied : List (String × String)
deriving DecidableEq, Repr

/-- addAWSTags of main.go: decompose the volume URL (panics on a short
URL), split the raw tag string on the separator, fetch the remote tags
once (an API error increments processingErrors and abandons this claim,
returning normally), run the token loop, and if at least one pair was
applied increment volumesTagged once. -/
def addAWSTags (env : Env) (awsTags awsVolumeID separator : String)
    (cnt : Counters) : Except Crash AWSResult :=
  match splitVol awsVolumeID with
  | .error c => .error c
  | .ok (awsRegion, awsVolume) =>
    let tags := goSplit awsTags separator
    match env.describeTags awsRegion awsVolume with
    | none =>
      .ok ⟨{ cnt with processingErrors := cnt.processingErrors + 1 }, []⟩
    | some remote =>
      match processTags env.applyOk remote tags cnt with
      | .error c => .error c
      | .ok (cnt₂, applied) =>
        if applied.isEmpty then .ok ⟨cnt₂, applied⟩
        else .ok ⟨{ cnt₂ with volumesTagged := cnt₂.volumesTagged + 1 }, applied⟩

/-- A PersistentVolumeClaim as the controller sees it: its annotations
(a key-value map, modelled as an association list) and the bound volume
name from its spec. -/
structure PVC where
  annotations : List (String × String)
  volumeName : String
deriving DecidableEq, Repr

/-- Kinds of watch events; only Added and Modified trigger processing. -/
inductive EventType where
  | added
  | modified
  | deleted
  | other
deriving DecidableEq, Repr

/-- isEBSVolume of main.go: the claim carries the storage-provisioner
annotation with exactly the aws-ebs provisioner value. -/
def isEBSVolume (volume : PVC) : Bool :=
  volume.annotations.any (fun kv =>
    kv.1 == "volume.beta.kubernetes.io/storage-provisioner"
      && kv.2 == "kubernetes.io/aws-ebs")

/-- Annotation scan of main (lines 164-174): find the custom separator
(default ",") and the raw tag list (default "", meaning no action). -/
def scanAnnotations (anns : List (String × String)) : String × String :=
  anns.foldl
    (fun acc kv =>
      let sep :=
        if kv.1 == "volume.beta.kubernetes.io/additional-resource-tags-separator"
        then kv.2 else acc.1
      let tags :=
        if kv.1 == "volume.beta.kubernetes.io/additional-resource-tags"
        then kv.2 else acc.2
      (sep, tags))
    (",", "")

/-- Observable outcome of one event-loop iteration that did not kill the
process: the counters, the pairs applied, how many k8s PersistentVolumes
Get calls and how many EC2 DescribeVolumes calls were made, and whether
the dry-run skip message was logged. -/
structure EventOutcome where
  counters : Counters
  applied : List (String × String)
  pvGetCalls : Nat
  describeCalls : Nat
  dryRunLogged : Bool
deriving DecidableEq, Repr

/-- Body of the watch loop of main (lines 139-187) for one event:
increment eventsProcessed, and for an Added/Modified event fetch the
bound PersistentVolume (a failed fetch increments processingErrors and
moves on), dereference its AWSElasticBlockStore source for the volume ID
(a nil source is a nil-pointer panic), and only then consult
isEBSVolume; if the filter passes and the tag annotation is non-empty,
run addAWSTags unless in dry-run mode, where a skip message is logged
instead. -/
def processEvent (env : Env) (dryrun : Bool) (etype : EventType) (pvc : PVC)
    (cnt : Counters) : Except Crash EventOutcome :=
  let cnt := { cnt with eventsProcessed := cnt.eventsProcessed + 1 }
  if etype = .added ∨ etype = .modified then
    match env.getPV pvc.volumeName with
    | none =>
      .ok ⟨{ cnt with processingErrors := cnt.processingErrors + 1 }, [], 1, 0, false⟩
    | some ebsSource =>
      match ebsSource with
      | none => .error .nilDeref
      | some awsVolumeID =>
        if isEBSVolume pvc then
          let scanned := scanAnnotations pvc.annotations
          if scanned.2 ≠ "" then
            if !dryrun then
              match addAWSTags env scanned.2 awsVolumeID scanned.1 cnt with
              | .error c => .error c
              | .ok res => .ok ⟨res.counters, res.applied, 1, 1, false⟩
            else
              .ok ⟨cnt, [], 1, 0, true⟩
          else
            .ok ⟨cnt, [], 1, 0, false⟩
        else
          .ok ⟨cnt, [], 1, 0, false⟩
  else
    .ok ⟨cnt, [], 0, 0, false⟩

/-- The watch loop over a finite event sequence: any crash inside one
iteration terminates the process, leaving all later events unprocessed. -/
def runLoop (env : Env) (dryrun : Bool) :
    List (EventType × PVC) → Counters → Except Crash Counters
  | [], cnt => .ok cnt
  | (etype, pvc) :: rest, cnt =>
    match processEvent env dryrun etype pvc cnt with
    | .error c => .error c
    | .ok out => runLoop env dryrun rest out.counters

/-- Modelled from the spec: the provider-side effect of one CreateTags
call, which is not code of this repository.  The spec calls it
"create/overwrite" semantics: an existing tag with the same key has its
value overwritten, otherwise the pair is appended. -/
def upsertTag (tags : List Tag) (k v : String) : List Tag :=
  if tags.any (fun t => t.key == k) then
    tags.map (fun t => if t.key == k then ⟨k, v⟩ else t)
  else tags ++ [⟨k, v⟩]

/-- Remote tag set after a sequence of successful CreateTags calls,
applied in order (modelled from the spec's create/overwrite wording). -/
def applyAll (tags : List Tag) (ps : List (String × String)) : List Tag :=
  ps.foldl (fun r p => upsertTag r p.1 p.2) tags

/-- Region extraction as the spec words it: the zone with any single
trailing lowercase-letter character removed. -/
def specRegionOfZone (zone : String) : String :=
  match zone.data.getLast? with
  | some c => if c.isLower then String.mk zone.data.dropLast else zone
  | none => zone

/-- Zeroed counters, used as a start state in concrete runs. -/
def cnt0 : Counters := ⟨0, 0, 0, 0, 0⟩

/-- Concrete environment: the bound PV resolves to an EBS-backed volume,
the remote volume currently has no tags, and every CreateTags call
succeeds. -/
def envOk : Env :=
  ⟨fun _ => some (some "aws://eu-west-1b/vol-1"), fun _ _ => some [], fun _ _ => true⟩

/-- Concrete environment whose DescribeVolumes call reports the remote
tag set left behind by a first reconciliation of "env=prod,env=dev"
against an initially untagged volume, under create/overwrite semantics. -/
def envAfterFirstRun : Env :=
  ⟨fun _ => some (some "aws://eu-west-1b/vol-1"),
   fun _ _ => some [⟨"env", "dev"⟩], fun _ _ => true⟩

/-- Concrete environment whose PV resolution yields a volume with a nil
AWSElasticBlockStore source. -/
def envNilSource : Env :=
  ⟨fun _ => some none, fun _ _ => some [], fun _ _ => true⟩

/-- Concrete environment whose DescribeVolumes call fails. -/
def envFetchFail : Env :=
  ⟨fun _ => some (some "aws://eu-west-1b/vol-1"), fun _ _ => none, fun _ _ => true⟩

/-- Concrete environment whose PV resolution yields a malformed volume
URL (fewer than four "/"-separated segments) and whose DescribeVolumes
call fails. -/
def envLoopCrash : Env :=
  ⟨fun _ => some (some "vol-1"), fun _ _ => none, fun _ _ => true⟩

/-- Concrete environment for a first reconciliation pass: the remote
volume already carries (env,prod). -/
def envFirstRun : Env :=
  ⟨fun _ => some (some "aws://eu-west-1b/vol-1"),
   fun _ _ => some [⟨"env", "prod"⟩], fun _ _ => true⟩

/-- Concrete environment for a second reconciliation pass: the remote
volume carries the tags left by the first pass, (env,prod) and
(team,infra). -/
def envSecondRun : Env :=
  ⟨fun _ => some (some "aws://eu-west-1b/vol-1"),
   fun _ _ => some [⟨"env", "prod"⟩, ⟨"team", "infra"⟩], fun _ _ => true⟩

/-- Concrete claim carrying the aws-ebs provisioner marker and one tag. -/
def pvcTagged : PVC :=
  ⟨[("volume.beta.kubernetes.io/storage-provisioner", "kubernetes.io/aws-ebs"),
    ("volume.beta.kubernetes.io/additional-resource-tags", "env=prod")], "pv-1"⟩

/-- Concrete claim with no annotations at all. -/
def pvcBare : PVC := ⟨[], "pv-1"⟩

/-- Pairwise key-functionality of a list of key/value pairs: no two
entries share a key with different values. -/
def keyFunctional (ps : List (String × String)) : Prop :=
  ∀ p ∈ ps, ∀ q ∈ ps, p.1 = q.1 → p.2 = q.2

theorem splitOnChar_ne_nil (c : Char) : ∀ l : List Char, splitOnChar c l ≠ []
  | [] => by simp [splitOnChar]
  | x :: xs => by
    simp only [splitOnChar]
    by_cases hb : (x == c) = true
    · simp [hb]
    · simp only [hb, Bool.false_eq_true, if_false]
      rcases splitOnChar c xs with _ | ⟨h1, t1⟩ <;> simp

theorem splitOnChar_length (c : Char) :
    ∀ l : List Char, (splitOnChar c l).length = l.count c + 1
  | [] => rfl
  | x :: xs => by
    have ih := splitOnChar_length c xs
    by_cases hx : x = c
    · subst hx
      simp [splitOnChar, ih, List.count_cons]
    · have hb : (x == c) = false := beq_eq_false_iff_ne.mpr hx
      simp only [splitOnChar, hb, Bool.false_eq_true, if_false]
      rcases hs : splitOnChar c xs with _ | ⟨h1, t1⟩
      · exact absurd hs (splitOnChar_ne_nil c xs)
      · rw [hs] at ih
        simp only [List.length_cons] at ih
        simp [List.count_cons, hb]
        omega

theorem parseToken_eq_count (tok : String) :
    (parseToken tok).isSome = true ↔ tok.data.count '=' = 1 := by
  have hlen := splitOnChar_length '=' tok.data
  rcases hs : splitOnChar '=' tok.data with _ | ⟨a, _ | ⟨b, _ | ⟨e, t⟩⟩⟩ <;>
    rw [hs] at hlen <;> simp only [List.length_cons, List.length_nil] at hlen <;>
    simp [parseToken, hs] <;> omega

theorem count_one_ne_empty (tok : String) (h : tok.data.count '=' = 1) : tok ≠ "" := by
  intro hemp
  rw [hemp] at h
  exact absurd h (by decide)

theorem parseToken_isSome (tok : String) :
    (parseToken tok).isSome = true ↔ tok ≠ "" ∧ tok.data.count '=' = 1 := by
  rw [parseToken_eq_count]
  constructor
  · intro h
    exact ⟨count_one_ne_empty tok h, h⟩
  · rintro ⟨_, h⟩
    exact h

theorem reLower_getLast :
    ∀ l : List Char,
      reLowerAtEndDelete l =
        match l.getLast? with
        | some c => if c.isLower then l.dropLast else l
        | none => l
  | [] => rfl
  | [c] => by
    have hiff : ('a' ≤ c ∧ c ≤ 'z') ↔ c.isLower = true := by
      simp only [Char.isLower]
      constructor
      · rintro ⟨h1, h2⟩
        simp only [Bool.and_eq_true, decide_eq_true_eq]
        exact ⟨h1, h2⟩
      · intro h
        simp only [Bool.and_eq_true, decide_eq_true_eq] at h
        exact h
    simp only [reLowerAtEndDelete, List.getLast?_singleton, List.dropLast_single]
    by_cases h : 'a' ≤ c ∧ c ≤ 'z'
    · rw [if_pos h, if_pos (hiff.mp h)]
    · rw [if_neg h, if_neg ?_]
      intro hc
      exact h (hiff.mpr hc)
  | a :: b :: rest => by
    have ih := reLower_getLast (b :: rest)
    show a :: reLowerAtEndDelete (b :: rest) = _
    rw [ih, List.getLast?_cons_cons]
    rcases hlast : (b :: rest).getLast? with _ | c
    · exact absurd (List.getLast?_eq_none_iff.mp hlast) (by simp)
    · by_cases hc : c.isLower
      · simp [hc, List.dropLast_cons₂]
      · simp [hc]

theorem specRegionOfZone_mk (l : List Char) :
    specRegionOfZone (String.mk l) = String.mk (reLowerAtEndDelete l) := by
  rw [reLower_getLast l]
  unfold specRegionOfZone
  rcases h : l.getLast? with _ | c
  · simp [h]
  · simp only [h]
    by_cases hc : c.isLower <;> simp [hc]

/-- C7: for every volume identifier splitting on "/" into exactly four
segments, splitVol returns the third segment with a single trailing
lowercase letter (if any) removed as the region, and the fourth segment
as the volume id. -/
theorem C7_splitVol_region_and_id (vol : String) (s0 s1 s2 s3 : List Char)
    (h : splitOnChar '/' vol.data = [s0, s1, s2, s3]) :
    splitVol vol = .ok (specRegionOfZone (String.mk s2), String.mk s3) := by
  unfold splitVol
  rw [h, specRegionOfZone_mk]
  rfl

/-- Witness for C7 at the spec's concrete example. -/
theorem C7_witness :
    splitVol "aws://eu-west-1b/vol-0123456789abcdef0" =
      .ok ("eu-west-1", "vol-0123456789abcdef0") := by
  have h := C7_splitVol_region_and_id "aws://eu-west-1b/vol-0123456789abcdef0"
    "aws:".data [] "eu-west-1b".data "vol-0123456789abcdef0".data (by decide)
  rw [h]
  decide

/-- C8: splitVol performs no segment-count validation: every input with
fewer than four "/"-separated segments reaches the index-out-of-range
branch, and every input with at least four segments does not. -/
theorem C8_splitVol_no_validation (vol : String) :
    ((splitOnChar '/' vol.data).length < 4 →
      splitVol vol = .error .indexOutOfRange) ∧
    (4 ≤ (splitOnChar '/' vol.data).length →
      ∃ rv, splitVol vol = .ok rv) := by
  constructor
  · intro hlt
    unfold splitVol
    have h3 : (splitOnChar '/' vol.data)[3]? = none := List.getElem?_eq_none (by omega)
    rcases h2 : (splitOnChar '/' vol.data)[2]? with _ | z <;> simp [h2, h3]
  · intro hge
    unfold splitVol
    have h2 : 2 < (splitOnChar '/' vol.data).length := by omega
    have h3 : 3 < (splitOnChar '/' vol.data).length := by omega
    rw [List.getElem?_eq_getElem h2, List.getElem?_eq_getElem h3]
    exact ⟨_, rfl⟩

/-- Witness for C8: "a/b" has two segments and panics; a four-segment
input succeeds. -/
theorem C8_witness :
    splitVol "a/b" = .error .indexOutOfRange ∧
      ∃ rv, splitVol "aws://z/v" = .ok rv :=
  ⟨(C8_splitVol_no_validation "a/b").1 (by decide),
   (C8_splitVol_no_validation "aws://z/v").2 (by decide)⟩

theorem processTags_ok (remote : List Tag) :
    ∀ (toks : List String) (cnt : Counters),
      ∃ cnt₂ applied,
        processTags (fun _ _ => true) remote toks cnt = .ok (cnt₂, applied) ∧
        applied = (toks.filterMap parseToken).filter (fun p => !hasTag remote p.1 p.2) ∧
        cnt₂.processingErrors = cnt.processingErrors +
          (toks.filter (fun t => (parseToken t).isNone)).length ∧
        cnt₂.tagsExisting = cnt.tagsExisting +
          ((toks.filterMap parseToken).filter (fun p => hasTag remote p.1 p.2)).length ∧
        cnt₂.tagsAdded = cnt.tagsAdded +
          ((toks.filterMap parseToken).filter (fun p => !hasTag remote p.1 p.2)).length ∧
        cnt₂.eventsProcessed = cnt.eventsProcessed ∧
        cnt₂.volumesTagged = cnt.volumesTagged
  | [], cnt => ⟨cnt, [], rfl, by simp, by simp, by simp, by simp, rfl, rfl⟩
  | tok :: rest, cnt => by
    rcases h : parseToken tok with _ | ⟨k, v⟩
    · obtain ⟨cnt₂, applied, hrun, ha, herr, hex, hadd, hev, hvol⟩ :=
        processTags_ok remote rest
          { cnt with processingErrors := cnt.processingErrors + 1 }
      refine ⟨cnt₂, applied, ?_, ?_, ?_, ?_, ?_, ?_, ?_⟩ <;>
        simp only [processTags, h, hrun, ha, herr, hex, hadd, hev, hvol,
          List.filterMap_cons, List.filter_cons, Option.isNone_none, if_true,
          List.length_cons] <;> (try simp) <;> (try omega)
    · by_cases hh : hasTag remote k v = true
      · obtain ⟨cnt₂, applied, hrun, ha, herr, hex, hadd, hev, hvol⟩ :=
          processTags_ok remote rest
            { cnt with tagsExisting := cnt.tagsExisting + 1 }
        refine ⟨cnt₂, applied, ?_, ?_, ?_, ?_, ?_, ?_, ?_⟩ <;>
          simp only [processTags, h, hh, hrun, ha, herr, hex, hadd, hev, hvol,
            List.filterMap_cons, List.filter_cons, if_true,
            List.length_cons] <;> (try simp [hh]) <;> (try omega)
      · obtain ⟨cnt₂, applied, hrun, ha, herr, hex, hadd, hev, hvol⟩ :=
          processTags_ok remote rest
            { cnt with tagsAdded := cnt.tagsAdded + 1 }
        have hhf : hasTag remote k v = false := by
          rcases hb : hasTag remote k v with _ | _
          · rfl
          · exact absurd hb hh
        refine ⟨cnt₂, (k, v) :: applied, ?_, ?_, ?_, ?_, ?_, ?_, ?_⟩ <;>
          simp only [processTags, h, hhf, setTag, if_true, hrun, ha, herr, hex, hadd,
            hev, hvol, List.filterMap_cons, List.filter_cons,
            List.length_cons] <;> (try simp [hhf]) <;> (try omega)

theorem parseToken_isNone_eq (tok : String) :
    (parseToken tok).isNone = !(tok.data.count '=' == 1) := by
  have hc := parseToken_eq_count tok
  rcases h : parseToken tok with _ | p <;> rw [h] at hc <;> simp at hc ⊢ <;> omega

theorem filterMap_parse_length :
    ∀ toks : List String,
      (toks.filterMap parseToken).length =
        (toks.filter (fun t => t.data.count '=' == 1)).length
  | [] => rfl
  | t :: ts => by
    have ih := filterMap_parse_length ts
    have hc := parseToken_eq_count t
    rcases h : parseToken t with _ | p <;> rw [h] at hc <;> simp at hc <;>
      simp [List.filterMap_cons, h, List.filter_cons, hc, ih]

theorem filter_length_split {α : Type u} (p : α → Bool) :
    ∀ l : List α, (l.filter p).length + (l.filter (fun x => !(p x))).length = l.length
  | [] => rfl
  | x :: xs => by
    have ih := filter_length_split p xs
    rcases hb : p x with _ | _ <;> simp [List.filter_cons, hb] <;> omega

/-- C1: splitting the tag-list string on the separator and each token on
"=", a token is parsed into a key/value entry exactly when it is
non-empty and contains exactly one "=", every other token increments
processingErrors by exactly one without aborting the batch, and the
number of entries that go on to the existing/apply phases equals the
number of such well-formed tokens. -/
theorem C1_tag_parsing (s sep : String) (remote : List Tag) (cnt cnt₂ : Counters)
    (applied : List (String × String))
    (hrun : processTags (fun _ _ => true) remote (goSplit s sep) cnt =
      .ok (cnt₂, applied)) :
    (∀ tok : String, (parseToken tok).isSome = true ↔
      tok ≠ "" ∧ tok.data.count '=' = 1) ∧
    cnt₂.processingErrors = cnt.processingErrors +
      ((goSplit s sep).filter (fun t => !(t.data.count '=' == 1))).length ∧
    cnt₂.tagsExisting + cnt₂.tagsAdded = cnt.tagsExisting + cnt.tagsAdded +
      ((goSplit s sep).filter (fun t => t.data.count '=' == 1)).length := by
  obtain ⟨cnt₃, applied₃, hrun₃, ha, herr, hex, hadd, hev, hvol⟩ :=
    processTags_ok remote (goSplit s sep) cnt
  rw [hrun] at hrun₃
  injection hrun₃ with hrun₄
  injection hrun₄ with hc hap
  subst hc
  refine ⟨parseToken_isSome, ?_, ?_⟩
  · rw [herr]
    have hfeq : (goSplit s sep).filter (fun t => (parseToken t).isNone) =
        (goSplit s sep).filter (fun t => !(t.data.count '=' == 1)) :=
      List.filter_congr (fun x _ => parseToken_isNone_eq x)
    rw [hfeq]
  · rw [hex, hadd]
    have hsplit :=
      filter_length_split (fun p : String × String => hasTag remote p.1 p.2)
        ((goSplit s sep).filterMap parseToken)
    have hlen := filterMap_parse_length (goSplit s sep)
    omega

/-- Witness for C1 on the tag list "env=prod,x,y==z" split by ",": one
well-formed token is parsed, the tokens "x" (no "=") and "y==z" (two
"=") each add one processing error. -/
theorem C1_witness :
    (∀ tok : String, (parseToken tok).isSome = true ↔
      tok ≠ "" ∧ tok.data.count '=' = 1) ∧
    (Counters.mk 0 1 0 0 2).processingErrors = cnt0.processingErrors +
      ((goSplit "env=prod,x,y==z" ",").filter
        (fun t => !(t.data.count '=' == 1))).length ∧
    (Counters.mk 0 1 0 0 2).tagsExisting + (Counters.mk 0 1 0 0 2).tagsAdded =
      cnt0.tagsExisting + cnt0.tagsAdded +
      ((goSplit "env=prod,x,y==z" ",").filter
        (fun t => t.data.count '=' == 1)).length :=
  C1_tag_parsing "env=prod,x,y==z" "," [] cnt0 (Counters.mk 0 1 0 0 2)
    [("env", "prod")] (by decide)

/-- C2: under an all-succeeding apply oracle, a parsed pair is treated as
present exactly when some remote tag matches it on both key and value,
the pairs for which an apply call is issued are exactly the parsed pairs
minus the present ones, and each present pair increments tagsExisting by
one. -/
theorem C2_diff_against_remote (remote : List Tag) (toks : List String)
    (cnt cnt₂ : Counters) (applied : List (String × String))
    (hrun : processTags (fun _ _ => true) remote toks cnt = .ok (cnt₂, applied)) :
    (∀ k v, hasTag remote k v = true ↔ ∃ t ∈ remote, t.key = k ∧ t.value = v) ∧
    applied = (toks.filterMap parseToken).filter (fun p => !hasTag remote p.1 p.2) ∧
    cnt₂.tagsExisting = cnt.tagsExisting +
      ((toks.filterMap parseToken).filter (fun p => hasTag remote p.1 p.2)).length := by
  obtain ⟨cnt₃, applied₃, hrun₃, ha, herr, hex, hadd, hev, hvol⟩ :=
    processTags_ok remote toks cnt
  rw [hrun] at hrun₃
  injection hrun₃ with hrun₄
  injection hrun₄ with hc hap
  subst hc
  subst hap
  refine ⟨?_, ha, hex⟩
  intro k v
  unfold hasTag
  rw [List.any_eq_true]
  constructor
  · rintro ⟨t, ht, hkv⟩
    simp only [Bool.and_eq_true, beq_iff_eq] at hkv
    exact ⟨t, ht, hkv⟩
  · rintro ⟨t, ht, hk, hv⟩
    exact ⟨t, ht, by simp [hk, hv]⟩

/-- Witness for C2 at the spec's concrete example: remote tag set
{(env,prod)}, parsed pairs {(env,prod),(team,infra)}; only (team,infra)
is applied and tagsExisting increments once. -/
theorem C2_witness :
    (∀ k v, hasTag [⟨"env", "prod"⟩] k v = true ↔
      ∃ t ∈ [Tag.mk "env" "prod"], t.key = k ∧ t.value = v) ∧
    [("team", "infra")] =
      ((goSplit "env=prod,team=infra" ",").filterMap parseToken).filter
        (fun p => !hasTag [⟨"env", "prod"⟩] p.1 p.2) ∧
    (Counters.mk 0 1 1 0 0).tagsExisting = cnt0.tagsExisting +
      (((goSplit "env=prod,team=infra" ",").filterMap parseToken).filter
        (fun p => hasTag [⟨"env", "prod"⟩] p.1 p.2)).length :=
  C2_diff_against_remote [⟨"env", "prod"⟩] (goSplit "env=prod,team=infra" ",")
    cnt0 (Counters.mk 0 1 1 0 0) [("team", "infra")] (by decide)

theorem processTags_error_fatal (applyOk : String → String → Bool)
    (remote : List Tag) :
    ∀ (toks : List String) (cnt : Counters) (c : Crash),
      processTags applyOk remote toks cnt = .error c → c = .fatalLog
  | [], cnt, c => by simp [processTags]
  | tok :: rest, cnt, c => by
    simp only [processTags]
    rcases h : parseToken tok with _ | ⟨k, v⟩
    · exact processTags_error_fatal applyOk remote rest _ c
    · by_cases hh : hasTag remote k v = true
      · simp only [hh, if_true]
        exact processTags_error_fatal applyOk remote rest _ c
      · have hhf : hasTag remote k v = false := by
          rcases hb : hasTag remote k v with _ | _
          · rfl
          · exact absurd hb hh
        simp only [hhf, Bool.false_eq_true, if_false, setTag]
        by_cases ha : applyOk k v = true
        · simp only [ha, if_true]
          rcases hr : processTags applyOk remote rest
              { cnt with tagsAdded := cnt.tagsAdded + 1 } with c₂ | p
          · intro hc
            injection hc with hc
            subst hc
            exact processTags_error_fatal applyOk remote rest _ _ hr
          · simp
        · have haf : applyOk k v = false := by
            rcases hb : applyOk k v with _ | _
            · rfl
            · exact absurd hb ha
          simp only [haf, Bool.false_eq_true, if_false]
          intro hc
          injection hc with hc
          exact hc.symm

theorem addAWSTags_no_nilDeref (env : Env) (awsTags awsVolumeID separator : String)
    (cnt : Counters) :
    addAWSTags env awsTags awsVolumeID separator cnt ≠ .error .nilDeref := by
  unfold addAWSTags
  rcases hs : splitVol awsVolumeID with c | ⟨region, vid⟩
  · have : c = .indexOutOfRange := by
      unfold splitVol at hs
      rcases h2 : (splitOnChar '/' awsVolumeID.data)[2]? with _ | z <;>
        rcases h3 : (splitOnChar '/' awsVolumeID.data)[3]? with _ | v <;>
        rw [h2, h3] at hs <;> simp at hs <;> exact hs.symm
    subst this
    simp
  · cases hd : env.describeTags region vid with
    | none => simp [hd]
    | some remote =>
      cases hp : processTags env.applyOk remote (goSplit awsTags separator) cnt with
      | error c =>
        have hcf := processTags_error_fatal env.applyOk remote _ cnt c hp
        subst hcf
        simp [hd, hp]
      | ok p =>
        obtain ⟨cnt₂, applied⟩ := p
        by_cases he : applied = [] <;> simp [hd, hp, he]

/-- C4: the claim filter returns false exactly when no annotation carries
the provisioner-marker key with the known-backend value (exact,
case-sensitive match on both), and for a filtered-out claim the event is
ignored: no EC2 call of any kind is issued, nothing is applied, no error
is raised and no counter other than eventsProcessed changes.  Stated for
events whose bound volume resolves to an EBS-backed volume, since the
code resolves the volume before consulting the filter. -/
theorem C4_filter_rejects (env : Env) (dryrun : Bool) (etype : EventType) (pvc : PVC)
    (cnt : Counters) (vid : String)
    (het : etype = .added ∨ etype = .modified)
    (hpv : env.getPV pvc.volumeName = some (some vid)) :
    (isEBSVolume pvc = false ↔
      ∀ kv ∈ pvc.annotations,
        ¬(kv.1 = "volume.beta.kubernetes.io/storage-provisioner" ∧
          kv.2 = "kubernetes.io/aws-ebs")) ∧
    (isEBSVolume pvc = false →
      processEvent env dryrun etype pvc cnt =
        .ok ⟨{ cnt with eventsProcessed := cnt.eventsProcessed + 1 }, [], 1, 0, false⟩) := by
  constructor
  · unfold isEBSVolume
    rw [← Bool.not_eq_true, List.any_eq_true]
    simp
    constructor
    · intro h a b hab ha hb
      subst ha
      subst hb
      exact h hab
    · intro h hmem
      exact h _ _ hmem rfl rfl
  · intro hfilter
    simp [processEvent, het, hpv, hfilter]

/-- Witness for C4 on a claim with no annotations. -/
theorem C4_witness :
    (isEBSVolume pvcBare = false ↔
      ∀ kv ∈ pvcBare.annotations,
        ¬(kv.1 = "volume.beta.kubernetes.io/storage-provisioner" ∧
          kv.2 = "kubernetes.io/aws-ebs")) ∧
    (isEBSVolume pvcBare = false →
      processEvent envOk false .added pvcBare cnt0 =
        .ok ⟨{ cnt0 with eventsProcessed := cnt0.eventsProcessed + 1 }, [], 1, 0, false⟩) :=
  C4_filter_rejects envOk false .added pvcBare cnt0 "aws://eu-west-1b/vol-1"
    (Or.inl rfl) rfl

/-- Counterexample to C5 as stated: in dry-run mode the remote tag fetch
does not execute at all (zero DescribeVolumes calls), whereas the same
event in normal mode performs the fetch and applies a tag, so the
upstream fetch/diff steps do not run "exactly as in normal mode". -/
theorem C5_counterexample :
    (∃ out, processEvent envOk true .added pvcTagged cnt0 = .ok out ∧
      out.describeCalls = 0 ∧ out.applied = [] ∧ out.dryRunLogged = true) ∧
    (∃ out, processEvent envOk false .added pvcTagged cnt0 = .ok out ∧
      out.describeCalls = 1 ∧ out.applied = [("env", "prod")]) :=
  ⟨⟨⟨⟨1, 0, 0, 0, 0⟩, [], 1, 0, true⟩, by decide, rfl, rfl, rfl⟩,
   ⟨⟨⟨1, 1, 0, 1, 0⟩, [("env", "prod")], 1, 1, false⟩, by decide, rfl, rfl⟩⟩

/-- C5 as amended: in dry-run mode a claim that passes the filter and has
a non-empty tag annotation issues no mutating call, and moreover no
provider call at all — the dry-run branch short-circuits before tag
parsing, the remote fetch and the diff — logging the claim as skipped
and leaving every counter except eventsProcessed unchanged. -/
theorem C5_dry_run (env : Env) (etype : EventType) (pvc : PVC) (cnt : Counters)
    (vid : String)
    (het : etype = .added ∨ etype = .modified)
    (hpv : env.getPV pvc.volumeName = some (some vid))
    (hfilter : isEBSVolume pvc = true)
    (htags : (scanAnnotations pvc.annotations).2 ≠ "") :
    processEvent env true etype pvc cnt =
      .ok ⟨{ cnt with eventsProcessed := cnt.eventsProcessed + 1 }, [], 1, 0, true⟩ := by
  simp [processEvent, het, hpv, hfilter, htags]

/-- Witness for C5 as amended, on a marked claim with one tag. -/
theorem C5_witness :
    processEvent envOk true .added pvcTagged cnt0 =
      .ok ⟨{ cnt0 with eventsProcessed := cnt0.eventsProcessed + 1 }, [], 1, 0, true⟩ :=
  C5_dry_run envOk .added pvcTagged cnt0 "aws://eu-west-1b/vol-1" (Or.inl rfl) rfl
    (by decide) (by decide)

/-- Counterexample to C6 as stated: a claim the filter rejects (no
annotations at all) still triggers the bound-volume fetch — the k8s
PersistentVolumes Get happens once — because the code resolves the
volume before consulting the provisioner filter. -/
theorem C6_counterexample :
    isEBSVolume pvcBare = false ∧
    ∃ out, processEvent envOk false .added pvcBare cnt0 = .ok out ∧
      out.pvGetCalls = 1 :=
  ⟨rfl, ⟨⟨⟨1, 0, 0, 0, 0⟩, [], 1, 0, false⟩, by decide, rfl⟩⟩

/-- C6 as amended: the volume-resolver step runs before the claim filter:
for every added/modified event whose claim the filter rejects, the bound
volume object is nevertheless fetched (one PersistentVolumes Get call),
and only the cloud-provider calls are avoided. -/
theorem C6_resolver_before_filter (env : Env) (dryrun : Bool) (etype : EventType)
    (pvc : PVC) (cnt : Counters) (vid : String)
    (het : etype = .added ∨ etype = .modified)
    (hpv : env.getPV pvc.volumeName = some (some vid))
    (hfilter : isEBSVolume pvc = false) :
    ∃ out, processEvent env dryrun etype pvc cnt = .ok out ∧
      out.pvGetCalls = 1 ∧ out.describeCalls = 0 := by
  refine ⟨⟨{ cnt with eventsProcessed := cnt.eventsProcessed + 1 }, [], 1, 0, false⟩,
    ?_, rfl, rfl⟩
  simp [processEvent, het, hpv, hfilter]

/-- Witness for C6 as amended, on a claim with no annotations. -/
theorem C6_witness :
    ∃ out, processEvent envOk false .added pvcBare cnt0 = .ok out ∧
      out.pvGetCalls = 1 ∧ out.describeCalls = 0 :=
  C6_resolver_before_filter envOk false .added pvcBare cnt0 "aws://eu-west-1b/vol-1"
    (Or.inl rfl) rfl rfl

/-- C10: for every added/modified event whose bound volume resolves but
carries no AWSElasticBlockStore source, extracting the volume identifier
dereferences nil and crashes the process, whatever the claim's
annotations say (the provisioner filter is never consulted); with an
EBS-backed source the nil dereference cannot happen. -/
theorem C10_nil_source_crash (env : Env) (dryrun : Bool) (etype : EventType)
    (pvc : PVC) (cnt : Counters)
    (het : etype = .added ∨ etype = .modified) :
    (env.getPV pvc.volumeName = some none →
      processEvent env dryrun etype pvc cnt = .error .nilDeref) ∧
    (∀ vid, env.getPV pvc.volumeName = some (some vid) →
      processEvent env dryrun etype pvc cnt ≠ .error .nilDeref) := by
  constructor
  · intro hpv
    simp [processEvent, het, hpv]
  · intro vid hpv
    have haws := addAWSTags_no_nilDeref env
      (scanAnnotations pvc.annotations).2 vid (scanAnnotations pvc.annotations).1
      { cnt with eventsProcessed := cnt.eventsProcessed + 1 }
    simp only [processEvent, het, hpv]
    by_cases hf : isEBSVolume pvc = true <;>
      by_cases ht : (scanAnnotations pvc.annotations).2 = "" <;>
      by_cases hd : dryrun = true <;>
      simp [hf, ht, hd]
    all_goals
      rcases haws₂ : addAWSTags env (scanAnnotations pvc.annotations).2 vid
          (scanAnnotations pvc.annotations).1
          { cnt with eventsProcessed := cnt.eventsProcessed + 1 } with c | res
    all_goals simp [haws₂]
    all_goals intro hcc
    all_goals rw [hcc] at haws₂
    all_goals exact absurd haws₂ haws

/-- Witness for C10: the crash fires on a volume with a nil EBS source,
and cannot fire when the source is present. -/
theorem C10_witness :
    (envNilSource.getPV pvcBare.volumeName = some none →
      processEvent envNilSource false .added pvcBare cnt0 = .error .nilDeref) ∧
    (∀ vid, envNilSource.getPV pvcBare.volumeName = some (some vid) →
      processEvent envNilSource false .added pvcBare cnt0 ≠ .error .nilDeref) :=
  C10_nil_source_crash envNilSource false .added pvcBare cnt0 (Or.inl rfl)

/-- C9: a failing CreateTags call kills the process — regardless of any
tokens still pending — and a crash inside one event leaves every later
event of the stream unprocessed; by contrast a failing DescribeVolumes
fetch merely increments processingErrors, applies nothing and returns
normally so the loop can continue. -/
theorem C9_apply_fatal_fetch_recoverable (applyOk : String → String → Bool)
    (remote : List Tag) (tok : String) (rest : List String) (k v : String)
    (cnt : Counters) (env : Env) (dryrun : Bool) (ev : EventType × PVC)
    (evs : List (EventType × PVC)) (c : Crash)
    (awsTags volID sep region vid : String) :
    (parseToken tok = some (k, v) → hasTag remote k v = false →
      applyOk k v = false →
      processTags applyOk remote (tok :: rest) cnt = .error .fatalLog) ∧
    (processEvent env dryrun ev.1 ev.2 cnt = .error c →
      runLoop env dryrun (ev :: evs) cnt = .error c) ∧
    (splitVol volID = .ok (region, vid) → env.describeTags region vid = none →
      addAWSTags env awsTags volID sep cnt =
        .ok ⟨{ cnt with processingErrors := cnt.processingErrors + 1 }, []⟩) := by
  refine ⟨?_, ?_, ?_⟩
  · intro hp hh ha
    simp [processTags, hp, hh, setTag, ha]
  · intro hpe
    obtain ⟨etype, pvc⟩ := ev
    simp only at hpe
    simp [runLoop, hpe]
  · intro hsv hdt
    unfold addAWSTags
    simp only [hsv, hdt]

/-- Witness for C9: a failed apply aborts with the fatal crash and the
loop stops at the crashing event, while a failed fetch returns normally
with one more processing error. -/
theorem C9_witness :
    processTags (fun _ _ => false) [] ["a=b", "c=d"] cnt0 = .error .fatalLog ∧
    runLoop envLoopCrash false [(EventType.added, pvcTagged)] cnt0 =
      .error .indexOutOfRange ∧
    addAWSTags envLoopCrash "env=prod" "aws://eu-west-1b/vol-1" "," cnt0 =
      .ok ⟨{ cnt0 with processingErrors := cnt0.processingErrors + 1 }, []⟩ := by
  have h := C9_apply_fatal_fetch_recoverable (fun _ _ => false) [] "a=b" ["c=d"]
    "a" "b" cnt0 envLoopCrash false (.added, pvcTagged) [] .indexOutOfRange
    "env=prod" "aws://eu-west-1b/vol-1" "," "eu-west-1" "vol-1"
  exact ⟨h.1 (by decide) rfl rfl, h.2.1 (by decide), h.2.2 (by decide) rfl⟩

theorem hasTag_upsert_self (r : List Tag) (k v : String) :
    hasTag (upsertTag r k v) k v = true := by
  unfold hasTag upsertTag
  by_cases h : r.any (fun t => t.key == k) = true
  · rw [if_pos h, List.any_map]
    rw [List.any_eq_true] at h ⊢
    obtain ⟨t, ht, htk⟩ := h
    refine ⟨t, ht, ?_⟩
    simp only [Function.comp_apply, htk, if_true]
    simp
  · rw [if_neg h, List.any_append]
    simp

theorem hasTag_upsert_preserve (r : List Tag) (k v k₂ v₂ : String)
    (h : hasTag r k v = true) (hne : k₂ ≠ k) :
    hasTag (upsertTag r k₂ v₂) k v = true := by
  unfold hasTag at h ⊢
  unfold upsertTag
  rw [List.any_eq_true] at h
  obtain ⟨t, ht, htp⟩ := h
  simp only [Bool.and_eq_true, beq_iff_eq] at htp
  obtain ⟨htk, htv⟩ := htp
  have hfk : (t.key == k₂) = false := by
    rw [beq_eq_false_iff_ne, htk]
    exact fun hh => hne hh.symm
  by_cases ha : r.any (fun t => t.key == k₂) = true
  · rw [if_pos ha, List.any_eq_true]
    refine ⟨t, ?_, by simp [htk, htv]⟩
    have hmem := List.mem_map_of_mem
      (fun t : Tag => if t.key == k₂ then Tag.mk k₂ v₂ else t) ht
    simp only [hfk, Bool.false_eq_true, if_false] at hmem
    exact hmem
  · rw [if_neg ha, List.any_eq_true]
    exact ⟨t, List.mem_append_left _ ht, by simp [htk, htv]⟩

theorem hasTag_applyAll (P : List (String × String)) (hP : keyFunctional P) :
    ∀ (ps : List (String × String)) (R : List Tag) (k v : String),
      (∀ q ∈ ps, q ∈ P) → (k, v) ∈ P →
      (hasTag R k v = true ∨ (k, v) ∈ ps) →
      hasTag (applyAll R ps) k v = true
  | [], R, k, v => by
    intro _ _ hbase
    rcases hbase with hb | hb
    · simpa [applyAll] using hb
    · simp at hb
  | p :: tl, R, k, v => by
    intro hsub hkv hbase
    have hstep : applyAll R (p :: tl) = applyAll (upsertTag R p.1 p.2) tl := rfl
    rw [hstep]
    apply hasTag_applyAll P hP tl (upsertTag R p.1 p.2) k v
      (fun q hq => hsub q (List.mem_cons_of_mem p hq)) hkv
    rcases hbase with hR | hmem
    · by_cases hpk : p.1 = k
      · have hpP : p ∈ P := hsub p (List.mem_cons_self p tl)
        have hv₂ : p.2 = v := hP p hpP (k, v) hkv hpk
        left
        rw [hpk, hv₂]
        exact hasTag_upsert_self R k v
      · left
        exact hasTag_upsert_preserve R k v p.1 p.2 hR hpk
    · rcases List.mem_cons.mp hmem with heq | htl
      · have hp : p = (k, v) := heq.symm
        left
        rw [hp]
        exact hasTag_upsert_self R k v
      · right
        exact htl

/-- Counterexample to C3 as stated: the tag spec "env=prod,env=dev"
against an initially untagged volume applies both pairs; under the
provider's create/overwrite semantics the volume is then left with
(env,dev) only, so a second reconciliation whose fetch returns exactly
that resulting tag set re-applies (env,prod) — the second pass is not
free of apply calls. -/
theorem C3_counterexample :
    ∃ res1 res2,
      addAWSTags envOk "env=prod,env=dev" "aws://eu-west-1b/vol-1" "," cnt0 =
        .ok res1 ∧
      envAfterFirstRun.describeTags "eu-west-1" "vol-1" =
        some (applyAll [] res1.applied) ∧
      addAWSTags envAfterFirstRun "env=prod,env=dev" "aws://eu-west-1b/vol-1" ","
        cnt0 = .ok res2 ∧
      res2.applied = [("env", "prod")] := by
  refine ⟨⟨⟨0, 2, 0, 1, 0⟩, [("env", "prod"), ("env", "dev")]⟩,
    ⟨⟨0, 1, 1, 1, 0⟩, [("env", "prod")]⟩, by decide, by decide, by decide, rfl⟩

/-- C3 as amended: reconciliation is idempotent provided the parsed
pairs contain no two entries with the same key and different values:
if the second fetch returns the first run's resulting tag set (first
remote set plus the applied pairs under create/overwrite semantics),
the second pass issues zero apply calls and finds every parsed pair
existing. -/
theorem C3_idempotent_reconciliation (env env₂ : Env)
    (awsTags volID sep region vid : String) (R : List Tag) (cnt cnta : Counters)
    (res1 : AWSResult)
    (hsv : splitVol volID = .ok (region, vid))
    (hd1 : env.describeTags region vid = some R)
    (ha1 : env.applyOk = fun _ _ => true)
    (ha2 : env₂.applyOk = fun _ _ => true)
    (hfun : keyFunctional ((goSplit awsTags sep).filterMap parseToken))
    (hrun1 : addAWSTags env awsTags volID sep cnt = .ok res1)
    (hd2 : env₂.describeTags region vid = some (applyAll R res1.applied)) :
    ∃ cnt₂, addAWSTags env₂ awsTags volID sep cnta = .ok ⟨cnt₂, []⟩ ∧
      cnt₂.tagsExisting = cnta.tagsExisting +
        ((goSplit awsTags sep).filterMap parseToken).length ∧
      cnt₂.tagsAdded = cnta.tagsAdded := by
  obtain ⟨cnt₁, app₁, hr₁, hax, _, _, _, _, _⟩ :=
    processTags_ok R (goSplit awsTags sep) cnt
  have happlied : res1.applied = app₁ := by
    unfold addAWSTags at hrun1
    simp only [hsv, hd1, ha1, hr₁] at hrun1
    by_cases happ : app₁.isEmpty = true
    · rw [if_pos happ] at hrun1
      injection hrun1 with h1
      rw [← h1]
    · rw [if_neg happ] at hrun1
      injection hrun1 with h1
      rw [← h1]
  have hpres : ∀ p ∈ (goSplit awsTags sep).filterMap parseToken,
      hasTag (applyAll R res1.applied) p.1 p.2 = true := by
    intro p hp
    apply hasTag_applyAll ((goSplit awsTags sep).filterMap parseToken) hfun
      res1.applied R p.1 p.2
    · intro q hq
      rw [happlied, hax] at hq
      exact List.mem_of_mem_filter hq
    · simpa using hp
    · by_cases hbR : hasTag R p.1 p.2 = true
      · exact Or.inl hbR
      · refine Or.inr ?_
        rw [happlied, hax]
        refine List.mem_filter.mpr ⟨by simpa using hp, ?_⟩
        simp only [Bool.not_eq_true] at hbR ⊢
        simp [hbR]
  obtain ⟨cnt₂, app₂, hr₂, hax₂, _, hex₂, hadd₂, _, _⟩ :=
    processTags_ok (applyAll R res1.applied) (goSplit awsTags sep) cnta
  have happ₂ : app₂ = [] := by
    rw [hax₂]
    rw [List.filter_eq_nil_iff]
    intro p hp
    simp [hpres p hp]
  have hfull : ((goSplit awsTags sep).filterMap parseToken).filter
      (fun p => hasTag (applyAll R res1.applied) p.1 p.2) =
      (goSplit awsTags sep).filterMap parseToken :=
    List.filter_eq_self.mpr (fun p hp => hpres p hp)
  refine ⟨cnt₂, ?_, ?_, ?_⟩
  · unfold addAWSTags
    subst happ₂
    simp only [hsv, hd2, ha2, hr₂]
    simp
  · rw [hex₂, hfull]
  · rw [hadd₂]
    have : ((goSplit awsTags sep).filterMap parseToken).filter
        (fun p => !hasTag (applyAll R res1.applied) p.1 p.2) = [] := by
      rw [List.filter_eq_nil_iff]
      intro p hp
      simp [hpres p hp]
    rw [this]
    simp

/-- Witness for C3 as amended, at the spec's example pair list with
remote set {(env,prod)}: the first run applies (team,infra); a second
run fetching the resulting set applies nothing and finds both pairs. -/
theorem C3_witness :
    ∃ cnt₂,
      addAWSTags envSecondRun "env=prod,team=infra" "aws://eu-west-1b/vol-1" ","
        cnt0 = .ok ⟨cnt₂, []⟩ ∧
      cnt₂.tagsExisting = cnt0.tagsExisting +
        ((goSplit "env=prod,team=infra" ",").filterMap parseToken).length ∧
      cnt₂.tagsAdded = cnt0.tagsAdded := by
  apply C3_idempotent_reconciliation envFirstRun envSecondRun
    "env=prod,team=infra" "aws://eu-west-1b/vol-1" "," "eu-west-1" "vol-1"
    [⟨"env", "prod"⟩] cnt0 cnt0
    ⟨⟨0, 1, 1, 1, 0⟩, [("team", "infra")]⟩
    (by decide) rfl rfl rfl (by unfold keyFunctional; decide) (by decide) (by decide)

end KubeTagger
